import Mathlib

/-!
# AirPipe command-line entry point (`cmd/airpipe/main.go`)

A shallow embedding of `cmdSend`, `cmdReceive`, `genToken` and `progress`.

* Go strings are lists of characters.
* Calls that leave `main.go` (`os.Stat`, `crypto/rand`, the `crypto`, `qr` and
  `transfer` packages) are answered by a `World`: one field per call, giving
  what the call returns.  Every such call is recorded, in program order, in the
  trace of the command.
* Console lines of the two commands are recorded by kind and arguments; their
  layout is not modelled.  The line written by `progress` is modelled in full.
* `float64` values in `progress` are IEEE-754 binary64: every conversion and
  operation rounds to 53 significant bits, to nearest with ties to even.
-/

namespace Airpipe

/-! ## Data model -/

/-- A Go `string` (valid UTF-8, one `Char` per rune). -/
abbrev GoString := List Char

/-- A Go `byte`. -/
abbrev Byte := Fin 256

/-- The symmetric key handled by `crypto.GenerateKey` / `crypto.KeyToBase64` (a `[]byte`). -/
abbrev Key := List Byte

/-- A Go `error` value: either made in `main.go` by `fmt.Errorf`, or handed back by a
call into another package (told apart by an identity). -/
inductive GoError where
  | errorf (msg : GoString)
  | foreign (id : Nat)
  deriving DecidableEq, Repr

/-- The part of `os.FileInfo` that `cmdSend` reads: `Name()` and `Size()`. -/
structure FileInfo where
  name : GoString
  size : Int
  deriving DecidableEq, Repr

/-- The value built by `transfer.NewSender(relay, token, key)`. -/
structure Sender where
  relay : GoString
  token : GoString
  key : Key
  deriving DecidableEq, Repr

/-- The value built by `transfer.NewReceiver(relay, token, key)`. -/
structure Receiver where
  relay : GoString
  token : GoString
  key : Key
  deriving DecidableEq, Repr

/-- Console lines written by the two commands, by kind. -/
inductive Line where
  | sendBanner
  | fileLine (name : GoString) (size : Int)
  | urlLine (url : GoString)
  | connected
  | done
  | receiveBanner
  | destination (dir : GoString)
  | saved (path : GoString)
  deriving DecidableEq, Repr

/-- One observable step of a command. -/
inductive Event where
  | osStat (path : GoString)
  | randRead (n : Nat)
  | generateKey
  | stdout (line : Line)
  | qrGenerateTerminal (url : GoString)
  | newSender (relay token : GoString) (key : Key)
  | senderConnect
  | waitForReceiver (timeout : Int)
  | sendFile (path : GoString)
  | senderClose
  | newReceiver (relay token : GoString) (key : Key)
  | receiverConnect
  | receiveFile (destDir : GoString)
  | receiverClose
  deriving DecidableEq, Repr

/-- What the calls leaving `main.go` return. -/
structure World where
  /-- Result of `os.Stat(path)`. -/
  osStat : GoString → Except GoError FileInfo
  /-- Bytes that `rand.Read` delivers into the buffer it is given. -/
  randBytes : List Byte
  /-- Error result of `rand.Read` (dropped by `genToken`). -/
  randErr : Option GoError
  /-- Both results of `crypto.GenerateKey()`. -/
  generateKey : Key × Option GoError
  /-- Result of `crypto.KeyToBase64(key)`. -/
  keyToBase64 : Key → GoString
  /-- Result of `sender.Connect()`. -/
  senderConnect : Sender → Option GoError
  /-- Result of `sender.WaitForReceiver(timeout)`. -/
  waitForReceiver : Sender → Int → Option GoError
  /-- Result of `sender.SendFile(path, progress)`. -/
  sendFile : Sender → GoString → Option GoError
  /-- Result of `receiver.Connect()`. -/
  receiverConnect : Receiver → Option GoError
  /-- Both results of `receiver.ReceiveFile(destDir, progress)`. -/
  receiveFile : Receiver → GoString → GoString × Option GoError

/-- Result of running a command: the returned `error` and the steps taken. -/
structure Outcome where
  err : Option GoError
  trace : List Event
  deriving DecidableEq, Repr

/-! ## Standard-library functions used by `main.go` -/

/-- Scan of `strings.Replace` for a non-empty `old`: `n` replacements are still allowed,
`skip` characters of the occurrence just replaced are still to be dropped. -/
def replaceScan (old new : GoString) : Nat → Nat → GoString → GoString
  | _, _, [] => []
  | n, skip + 1, _ :: cs => replaceScan old new n skip cs
  | 0, 0, c :: cs => c :: cs
  | n + 1, 0, c :: cs =>
    if old.isPrefixOf (c :: cs) then new ++ replaceScan old new n (old.length - 1) cs
    else c :: replaceScan old new (n + 1) 0 cs

/-- Scan of `strings.Replace` for an empty `old`: `new` goes in front of the string and
after each character, at most `n` times. -/
def replaceEmpty (new : GoString) : Nat → GoString → GoString
  | 0, s => s
  | _ + 1, [] => new
  | n + 1, c :: cs => new ++ c :: replaceEmpty new n cs

/-- Go `strings.Replace(s, old, new, n)`: the first `n` non-overlapping occurrences of
`old` become `new`; a negative `n` means no limit. -/
def stringsReplace (s old new : GoString) (n : Int) : GoString :=
  if old = new ∨ n = 0 then s
  else
    let limit := if n < 0 then s.length + 1 else n.toNat
    if old = [] then replaceEmpty new limit s else replaceScan old new limit 0 s

/-- Go `strings.Repeat(s, count)`; `none` is the panic on a negative count. -/
def stringsRepeat (s : GoString) (count : Int) : Option GoString :=
  if count < 0 then none else some (List.replicate count.toNat s).flatten

/-- The digit table of `encoding/hex`. -/
def hextable : GoString := "0123456789abcdef".toList

/-- Go `hex.EncodeToString`: each byte `v` gives `hextable[v>>4]`, `hextable[v&0x0f]`. -/
def hexEncodeToString (src : List Byte) : GoString :=
  src.flatMap fun v => [hextable.getD (v.val >>> 4) '0', hextable.getD (v.val &&& 0x0f) '0']

/-- The two digits written for one byte. -/
def hexPair (v : Byte) : GoString :=
  [hextable.getD (v.val >>> 4) '0', hextable.getD (v.val &&& 0x0f) '0']

/-- Buffer contents after `rand.Read(b)`: the delivered bytes overwrite the front of `b`;
the length of `b` never changes. -/
def readInto (delivered b : List Byte) : List Byte :=
  delivered.take b.length ++ b.drop delivered.length

/-- The `%-Ns` verb of `fmt`: pad with blanks on the right up to `width` characters. -/
def padRight (width : Nat) (s : GoString) : GoString :=
  s ++ List.replicate (width - s.length) ' '

/-- Go `time.Minute`, in nanoseconds. -/
def timeMinute : Int := 60 * 1000000000

/-! ## `main.go` -/

/-- `genToken`: a 16-byte zeroed buffer, filled by `rand.Read` (its error is not looked
at), hex-encoded. -/
def genToken (w : World) : GoString :=
  let b : List Byte := List.replicate 16 0
  let b := readInto w.randBytes b
  hexEncodeToString b

/-- The expression assigned to `httpRelay` in `cmdSend` and `cmdReceive`. -/
def httpRelay (relay : GoString) : GoString :=
  stringsReplace (stringsReplace relay "wss://".toList "https://".toList 1)
    "ws://".toList "http://".toList 1

/-- The steps of `cmdSend` after `defer sender.Close()`, up to the `return`. -/
def cmdSendConnected (w : World) (sender : Sender) (filePath : GoString) : Outcome :=
  match w.waitForReceiver sender (5 * timeMinute) with
  | some err => ⟨some err, [Event.waitForReceiver (5 * timeMinute)]⟩
  | none =>
    match w.sendFile sender filePath with
    | some err =>
      ⟨some err, [Event.waitForReceiver (5 * timeMinute), Event.stdout Line.connected,
        Event.sendFile filePath]⟩
    | none =>
      ⟨none, [Event.waitForReceiver (5 * timeMinute), Event.stdout Line.connected,
        Event.sendFile filePath, Event.stdout Line.done]⟩

/-- `cmdSend(relay, filePath)`. -/
def cmdSend (w : World) (relay filePath : GoString) : Outcome :=
  match w.osStat filePath with
  | Except.error _ =>
    ⟨some (GoError.errorf ("file not found: ".toList ++ filePath)), [Event.osStat filePath]⟩
  | Except.ok stat =>
    let token := genToken w
    let key := w.generateKey.1
    let url := httpRelay relay ++ "/d/".toList ++ token ++ "#".toList ++ w.keyToBase64 key
    let sender : Sender := ⟨relay, token, key⟩
    let start : List Event :=
      [Event.osStat filePath, Event.randRead 16, Event.generateKey,
        Event.stdout Line.sendBanner, Event.stdout (Line.fileLine stat.name stat.size),
        Event.qrGenerateTerminal url, Event.stdout (Line.urlLine url),
        Event.newSender relay token key, Event.senderConnect]
    match w.senderConnect sender with
    | some err => ⟨some err, start⟩
    | none =>
      let rest := cmdSendConnected w sender filePath
      ⟨rest.err, start ++ rest.trace ++ [Event.senderClose]⟩

/-- The steps of `cmdReceive` after `defer receiver.Close()`, up to the `return`. -/
def cmdReceiveConnected (w : World) (receiver : Receiver) (destDir : GoString) : Outcome :=
  match w.receiveFile receiver destDir with
  | (_, some err) => ⟨some err, [Event.receiveFile destDir]⟩
  | (savedPath, none) => ⟨none, [Event.receiveFile destDir, Event.stdout (Line.saved savedPath)]⟩

/-- `cmdReceive(relay, destDir)`. -/
def cmdReceive (w : World) (relay destDir : GoString) : Outcome :=
  let token := genToken w
  let key := w.generateKey.1
  let url := httpRelay relay ++ "/u/".toList ++ token ++ "#".toList ++ w.keyToBase64 key
  let receiver : Receiver := ⟨relay, token, key⟩
  let start : List Event :=
    [Event.randRead 16, Event.generateKey,
      Event.stdout Line.receiveBanner, Event.stdout (Line.destination destDir),
      Event.qrGenerateTerminal url, Event.stdout (Line.urlLine url),
      Event.newReceiver relay token key, Event.receiverConnect]
  match w.receiverConnect receiver with
  | some err => ⟨some err, start⟩
  | none =>
    let rest := cmdReceiveConnected w receiver destDir
    ⟨rest.err, start ++ rest.trace ++ [Event.receiverClose]⟩

/-! ### IEEE-754 binary64

A finite `float64` is a sign bit and a magnitude.  Every operation rounds the exact result
to 53 significant bits, to nearest with ties to even.  The exponent range is not limited:
for `int64` arguments with `total ≠ 0` every value met in `progress` is zero or has a
magnitude between `2^-63` and `2^70`, far inside the normal range of binary64.  A division
by zero, whose result is NaN or infinite, is `none`. -/

/-- Go `math.RoundToEven` on an exact number: the nearest integer, ties to the even one. -/
def roundHalfEven (x : ℚ) : Int :=
  if x - ⌊x⌋ < 1 / 2 then ⌊x⌋
  else if 1 / 2 < x - ⌊x⌋ then ⌊x⌋ + 1
  else if ⌊x⌋ % 2 = 0 then ⌊x⌋ else ⌊x⌋ + 1

/-- A finite binary64 value: sign bit and magnitude. -/
structure F64 where
  neg : Bool
  mag : ℚ
  deriving DecidableEq, Repr

/-- Rounding of an exact magnitude to binary64: with `2^e ≤ x < 2^(e+1)`, the nearest
multiple of `2^(e-52)`, ties to the even multiple. -/
def roundMag (x : ℚ) : ℚ :=
  if x ≤ 0 then 0
  else roundHalfEven (x / 2 ^ (Int.log 2 x - 52)) * 2 ^ (Int.log 2 x - 52)

/-- Go `float64(n)` for an `int64`. -/
def float64 (n : Int) : F64 := ⟨decide (n < 0), roundMag |(n : ℚ)|⟩

/-- Go `x * y` on `float64`. -/
def F64.mul (x y : F64) : F64 := ⟨xor x.neg y.neg, roundMag (x.mag * y.mag)⟩

/-- Go `x / y` on `float64`; `none` when `y` is zero (the result is NaN or infinite). -/
def F64.div (x y : F64) : Option F64 :=
  if y.mag = 0 then none else some ⟨xor x.neg y.neg, roundMag (x.mag / y.mag)⟩

/-- Go `int(x)` for a `float64`: the fraction is dropped; `none` when the result does not
fit `int` (64 bits), where Go leaves the value to the implementation. -/
def F64.toInt (x : F64) : Option Int :=
  let v : Int := if x.neg then -⌊x.mag⌋ else ⌊x.mag⌋
  if -2 ^ 63 ≤ v ∧ v < 2 ^ 63 then some v else none

/-- The `%.0f` verb of `fmt`: sign, then the magnitude rounded to an integer, in decimal. -/
def fmtFloat0 (x : F64) : GoString :=
  (if x.neg then ['-'] else []) ++ Nat.toDigits 10 (roundHalfEven x.mag).toNat

/-- The quantity `pct` of `progress`: `float64(sent) / float64(total) * 100`;
`none` when `total` is zero. -/
def progressPct (sent total : Int) : Option F64 :=
  ((float64 sent).div (float64 total)).map fun q => q.mul ⟨false, 100⟩

/-- The repeat count `int(pct/2.5)` of `progress`; `none` when `total` is zero or the
count does not fit `int`. -/
def progressFilled (sent total : Int) : Option Int :=
  (progressPct sent total).bind fun pct => (pct.div ⟨false, 5 / 2⟩).bind F64.toInt

/-- What a call of `progress` does. -/
inductive Drawn where
  /-- The text written by `Printf`. -/
  | printed (text : GoString)
  /-- A panic of `strings.Repeat`. -/
  | panic
  /-- The repeat count is left to the implementation by Go (`total` is zero, or the count
  does not fit `int`). -/
  | unspecified
  deriving DecidableEq, Repr

/-- `progress(sent, total)`:
`Printf("\r  [%-40s] %.0f%%", Repeat("█", int(pct/2.5)) + Repeat("░", 40-int(pct/2.5)), pct)`. -/
def progress (sent total : Int) : Drawn :=
  match progressPct sent total, progressFilled sent total with
  | some pct, some n =>
    match stringsRepeat ['█'] n, stringsRepeat ['░'] (40 - n) with
    | some filled, some empty =>
      Drawn.printed ("\r  [".toList ++ padRight 40 (filled ++ empty) ++ "] ".toList ++
        fmtFloat0 pct ++ "%".toList)
    | _, _ => Drawn.panic
  | _, _ => Drawn.unspecified

/-- Magnitude of `pct` when `sent` is not negative and `total` is positive. -/
def pctMag (sent total : Int) : ℚ :=
  roundMag (roundMag (roundMag sent / roundMag total) * 100)

/-- Magnitude of `pct/2.5` when `sent` is not negative and `total` is positive. -/
def cellsMag (sent total : Int) : ℚ := roundMag (pctMag sent total / (5 / 2))

/-! ## Projections of a trace -/

/-- The pairing URLs shown by a command (QR code and console line). -/
def shownURLs (t : List Event) : List GoString :=
  t.filterMap fun e =>
    match e with
    | Event.qrGenerateTerminal u => some u
    | Event.stdout (Line.urlLine u) => some u
    | _ => none

/-- The arguments of every `NewSender` / `NewReceiver` call. -/
def constructed (t : List Event) : List (GoString × GoString × Key) :=
  t.filterMap fun e =>
    match e with
    | Event.newSender r tok k => some (r, tok, k)
    | Event.newReceiver r tok k => some (r, tok, k)
    | _ => none

/-- Whether a step is a method call on the `Sender` / `Receiver`. -/
def Event.isPeerOp : Event → Bool
  | Event.senderConnect => true
  | Event.waitForReceiver _ => true
  | Event.sendFile _ => true
  | Event.senderClose => true
  | Event.receiverConnect => true
  | Event.receiveFile _ => true
  | Event.receiverClose => true
  | _ => false

/-- The method calls on the `Sender` / `Receiver`, in order. -/
def peerOps (t : List Event) : List Event := t.filter Event.isPeerOp

/-- The `Sender` that `cmdSend` constructs. -/
def senderOf (w : World) (relay : GoString) : Sender := ⟨relay, genToken w, w.generateKey.1⟩

/-- The `Receiver` that `cmdReceive` constructs. -/
def receiverOf (w : World) (relay : GoString) : Receiver := ⟨relay, genToken w, w.generateKey.1⟩

/-- The `World` with the results of `crypto.GenerateKey()` replaced. -/
def World.withKey (w : World) (key : Key) (keyErr : Option GoError) : World :=
  { w with generateKey := (key, keyErr) }

/-- The `World` with the error result of `crypto.GenerateKey()` replaced. -/
def World.withKeyError (w : World) (keyErr : Option GoError) : World :=
  { w with generateKey := (w.generateKey.1, keyErr) }

/-! ## Sample inputs -/

/-- The alphabet of URL-safe base64. -/
def base64Table : GoString :=
  "ABCDEFGHIJKLMNOPQRSTUVWXYZabcdefghijklmnopqrstuvwxyz0123456789-_".toList

/-- Modelled from the spec: `crypto.KeyToBase64` (package `internal/crypto`) is not among
the sources; the spec says the key is "encoded as URL-safe base64".  This is padded
URL-safe base64, used as the encoder of the sample worlds only: the theorems below hold
for every encoder. -/
def base64URL : List Byte → GoString
  | [] => []
  | [a] => [base64Table.getD (a.val / 4) 'A', base64Table.getD (a.val % 4 * 16) 'A', '=', '=']
  | [a, b] =>
    [base64Table.getD (a.val / 4) 'A', base64Table.getD (a.val % 4 * 16 + b.val / 16) 'A',
      base64Table.getD (b.val % 16 * 4) 'A', '=']
  | a :: b :: c :: rest =>
    [base64Table.getD (a.val / 4) 'A', base64Table.getD (a.val % 4 * 16 + b.val / 16) 'A',
      base64Table.getD (b.val % 16 * 4 + c.val / 64) 'A', base64Table.getD (c.val % 64) 'A']
      ++ base64URL rest

/-- A file that exists in the sample worlds. -/
def samplePath : GoString := "notes.txt".toList

/-- A relay host, without scheme. -/
def sampleHost : GoString := "relay.example:8080".toList

/-- A world in which every call succeeds. -/
def sampleWorld : World where
  osStat := fun p =>
    if p = samplePath then Except.ok ⟨samplePath, 2048⟩ else Except.error (GoError.foreign 1)
  randBytes := [0, 17, 34, 51, 68, 85, 102, 119, 136, 153, 170, 187, 204, 221, 238, 255]
  randErr := none
  generateKey := ([1, 2, 3, 4, 5, 6, 7, 8, 9, 10, 11, 12, 13, 14, 15, 16,
    17, 18, 19, 20, 21, 22, 23, 24, 25, 26, 27, 28, 29, 30, 31, 250], none)
  keyToBase64 := base64URL
  senderConnect := fun _ => none
  waitForReceiver := fun _ _ => none
  sendFile := fun _ _ => none
  receiverConnect := fun _ => none
  receiveFile := fun _ destDir => (destDir ++ "/notes.txt".toList, none)

/-- A world in which `crypto.GenerateKey` fails: it returns no key and an error.  The
random read of `genToken` and every other call succeed. -/
def keyFailWorld : World :=
  { sampleWorld with generateKey := ([], some (GoError.foreign 8)) }

/-- A world in which the receiver never joins: `WaitForReceiver` reports an error. -/
def timeoutWorld : World :=
  { sampleWorld with waitForReceiver := fun _ _ => some (GoError.foreign 3) }

end Airpipe

namespace Airpipe

/-! ## `strings.Replace` -/

theorem replaceScan_zero (old new s : GoString) : replaceScan old new 0 0 s = s := by
  cases s <;> rfl

theorem replaceScan_skip (old new : GoString) (n : Nat) (pre h : GoString) :
    replaceScan old new n pre.length (pre ++ h) = replaceScan old new n 0 h := by
  induction pre with
  | nil => rfl
  | cons p ps ih =>
    show replaceScan old new n (ps.length + 1) (p :: (ps ++ h)) = _
    rw [replaceScan]
    exact ih

theorem replaceScan_absent (old new : GoString) (n : Nat) (s : GoString)
    (hs : ¬ old <:+: s) : replaceScan old new n 0 s = s := by
  induction s with
  | nil => cases n <;> rfl
  | cons c cs ih =>
    rw [List.infix_cons_iff, not_or] at hs
    cases n with
    | zero => rfl
    | succ n =>
      have hp : old.isPrefixOf (c :: cs) = false := by
        rw [Bool.eq_false_iff]
        intro hp
        exact hs.1 (List.isPrefixOf_iff_prefix.mp hp)
      rw [replaceScan, hp]
      simp only [Bool.false_eq_true, if_false]
      rw [ih hs.2]

theorem replaceScan_head (old new : GoString) (n : Nat) (h : GoString) (hne : old ≠ []) :
    replaceScan old new (n + 1) 0 (old ++ h) = new ++ replaceScan old new n 0 h := by
  cases old with
  | nil => exact absurd rfl hne
  | cons c cs =>
    have hp : (c :: cs).isPrefixOf (c :: (cs ++ h)) = true :=
      List.isPrefixOf_iff_prefix.mpr (List.prefix_append (c :: cs) h)
    show replaceScan (c :: cs) new (n + 1) 0 (c :: (cs ++ h)) = _
    rw [replaceScan, hp]
    simp only [if_true, List.length_cons, Nat.add_sub_cancel]
    rw [replaceScan_skip]

theorem stringsReplace_one (s old new : GoString) (hon : old ≠ new) (hne : old ≠ []) :
    stringsReplace s old new 1 = replaceScan old new 1 0 s := by
  simp [stringsReplace, hon, hne]

theorem httpRelay_wss (h : GoString) (hws : ¬ "ws://".toList <:+: h) :
    httpRelay ("wss://".toList ++ h) = "https://".toList ++ h := by
  unfold httpRelay
  rw [stringsReplace_one _ _ _ (by decide) (by decide),
    stringsReplace_one _ _ _ (by decide) (by decide),
    replaceScan_head _ _ _ _ (by decide), replaceScan_zero]
  apply replaceScan_absent
  intro hin
  apply hws
  simpa [List.infix_cons_iff, List.cons_prefix_cons] using hin

theorem httpRelay_ws (h : GoString) (hwss : ¬ "wss://".toList <:+: h) :
    httpRelay ("ws://".toList ++ h) = "http://".toList ++ h := by
  unfold httpRelay
  have h1 : ¬ "wss://".toList <:+: "ws://".toList ++ h := by
    intro hin
    apply hwss
    simpa [List.infix_cons_iff, List.cons_prefix_cons] using hin
  rw [stringsReplace_one _ _ _ (by decide) (by decide),
    stringsReplace_one _ _ _ (by decide) (by decide),
    replaceScan_absent _ _ _ _ h1,
    replaceScan_head _ _ _ _ (by decide), replaceScan_zero]

theorem mem_replaceScan (old new : GoString) (x : Char) (s : GoString) :
    ∀ n k : Nat, x ∈ replaceScan old new n k s → x ∈ s ∨ x ∈ new := by
  induction s with
  | nil =>
    intro n k hx
    rw [replaceScan] at hx
    exact Or.inl hx
  | cons c cs ih =>
    intro n k hx
    cases k with
    | succ k =>
      rw [replaceScan] at hx
      exact (ih n k hx).imp (List.mem_cons_of_mem c) id
    | zero =>
      cases n with
      | zero =>
        rw [replaceScan] at hx
        exact Or.inl hx
      | succ n =>
        rw [replaceScan] at hx
        split at hx
        · rcases List.mem_append.mp hx with hn | hr
          · exact Or.inr hn
          · exact (ih _ _ hr).imp (List.mem_cons_of_mem c) id
        · rcases List.mem_cons.mp hx with hc | hr
          · exact Or.inl (hc ▸ List.mem_cons_self _ _)
          · exact (ih _ _ hr).imp (List.mem_cons_of_mem c) id

theorem hash_not_mem_httpRelay (relay : GoString) (hr : '#' ∉ relay) :
    '#' ∉ httpRelay relay := by
  unfold httpRelay
  rw [stringsReplace_one _ _ _ (by decide) (by decide),
    stringsReplace_one _ _ _ (by decide) (by decide)]
  intro hx
  rcases mem_replaceScan _ _ _ _ _ _ hx with h1 | h2
  · rcases mem_replaceScan _ _ _ _ _ _ h1 with h3 | h4
    · exact hr h3
    · exact absurd h4 (by decide)
  · exact absurd h2 (by decide)

/-! ## `hex.EncodeToString` and `genToken` -/

theorem hexEncodeToString_nil : hexEncodeToString [] = [] := rfl

theorem hexEncodeToString_cons (v : Byte) (vs : List Byte) :
    hexEncodeToString (v :: vs) = hexPair v ++ hexEncodeToString vs := rfl

theorem hexEncodeToString_length (src : List Byte) :
    (hexEncodeToString src).length = 2 * src.length := by
  induction src with
  | nil => rfl
  | cons v vs ih =>
    rw [hexEncodeToString_cons, List.length_append, ih, List.length_cons]
    simp only [hexPair, List.length_cons, List.length_nil]
    omega

set_option maxRecDepth 200000

theorem hexPair_digits : ∀ v : Byte, ∀ c ∈ hexPair v, c ∈ hextable := by
  decide

theorem hexPair_value : ∀ v : Byte,
    16 * hextable.indexOf ((hexPair v).getD 0 '0') + hextable.indexOf ((hexPair v).getD 1 '0')
      = v.val := by
  decide

theorem hexPair_injective (a b : Byte) (h : hexPair a = hexPair b) : a = b := by
  apply Fin.ext
  rw [← hexPair_value a, ← hexPair_value b, h]

theorem hexEncodeToString_digits (src : List Byte) :
    ∀ c ∈ hexEncodeToString src, c ∈ hextable := by
  induction src with
  | nil => intro c hc; cases hc
  | cons v vs ih =>
    intro c hc
    rw [hexEncodeToString_cons] at hc
    rcases List.mem_append.mp hc with h | h
    · exact hexPair_digits v c h
    · exact ih c h

theorem hexEncodeToString_injective (a : List Byte) :
    ∀ b : List Byte, hexEncodeToString a = hexEncodeToString b → a = b := by
  induction a with
  | nil =>
    intro b h
    have hl := congrArg List.length h
    rw [hexEncodeToString_length, hexEncodeToString_length] at hl
    cases b with
    | nil => rfl
    | cons _ _ => simp at hl
  | cons v vs ih =>
    intro b h
    cases b with
    | nil =>
      have hl := congrArg List.length h
      rw [hexEncodeToString_length, hexEncodeToString_length] at hl
      simp at hl
    | cons u us =>
      rw [hexEncodeToString_cons, hexEncodeToString_cons] at h
      have hp : hexPair v = hexPair u ∧ hexEncodeToString vs = hexEncodeToString us :=
        List.append_inj h rfl
      rw [hexPair_injective v u hp.1, ih us hp.2]

theorem genToken_of_full (w : World) (h : w.randBytes.length = 16) :
    genToken w = hexEncodeToString w.randBytes := by
  unfold genToken readInto
  simp only []
  rw [List.length_replicate, List.take_of_length_le (Nat.le_of_eq h), h,
    List.drop_eq_nil_of_le (by simp), List.append_nil]

theorem genToken_digits (w : World) : ∀ c ∈ genToken w, c ∈ hextable :=
  hexEncodeToString_digits _

theorem hash_not_mem_genToken (w : World) : '#' ∉ genToken w := fun h =>
  absurd (genToken_digits w _ h) (by decide)

end Airpipe

namespace Airpipe

/-! ## The pairing URL -/

theorem cmdSend_shown (w : World) (relay filePath : GoString) (info : FileInfo)
    (hstat : w.osStat filePath = Except.ok info) :
    shownURLs (cmdSend w relay filePath).trace =
        List.replicate 2 (httpRelay relay ++ "/d/".toList ++ genToken w ++ "#".toList ++
          w.keyToBase64 w.generateKey.1) ∧
      constructed (cmdSend w relay filePath).trace = [(relay, genToken w, w.generateKey.1)] := by
  unfold cmdSend cmdSendConnected
  rw [hstat]
  simp only []
  split
  · exact ⟨rfl, rfl⟩
  · split
    · exact ⟨rfl, rfl⟩
    · split <;> exact ⟨rfl, rfl⟩

theorem cmdReceive_shown (w : World) (relay destDir : GoString) :
    shownURLs (cmdReceive w relay destDir).trace =
        List.replicate 2 (httpRelay relay ++ "/u/".toList ++ genToken w ++ "#".toList ++
          w.keyToBase64 w.generateKey.1) ∧
      constructed (cmdReceive w relay destDir).trace =
        [(relay, genToken w, w.generateKey.1)] := by
  unfold cmdReceive cmdReceiveConnected
  simp only []
  split
  · exact ⟨rfl, rfl⟩
  · split <;> exact ⟨rfl, rfl⟩

/-- C1: for a relay address `"wss://" ++ h` or `"ws://" ++ h`, with `h` containing neither
`"wss://"` nor `"ws://"`, the pairing URL shown by `cmdSend` (as QR code and as console
line) is exactly `S ++ h ++ "/d/" ++ t ++ "#" ++ KeyToBase64(k)` and the one shown by
`cmdReceive` is `S ++ h ++ "/u/" ++ t ++ "#" ++ KeyToBase64(k)`, with `S` being
`"https://"` for `wss` and `"http://"` for `ws`; `NewSender` / `NewReceiver` is called once,
with the unmodified relay address and the same `t` and `k`. -/
theorem pairing_url_exact (w : World) (h filePath destDir : GoString) (info : FileInfo)
    (hstat : w.osStat filePath = Except.ok info)
    (hwss : ¬ "wss://".toList <:+: h) (hws : ¬ "ws://".toList <:+: h) :
    (shownURLs (cmdSend w ("wss://".toList ++ h) filePath).trace =
        List.replicate 2 ("https://".toList ++ h ++ "/d/".toList ++ genToken w ++ "#".toList ++
          w.keyToBase64 w.generateKey.1) ∧
      constructed (cmdSend w ("wss://".toList ++ h) filePath).trace =
        [("wss://".toList ++ h, genToken w, w.generateKey.1)]) ∧
    (shownURLs (cmdSend w ("ws://".toList ++ h) filePath).trace =
        List.replicate 2 ("http://".toList ++ h ++ "/d/".toList ++ genToken w ++ "#".toList ++
          w.keyToBase64 w.generateKey.1) ∧
      constructed (cmdSend w ("ws://".toList ++ h) filePath).trace =
        [("ws://".toList ++ h, genToken w, w.generateKey.1)]) ∧
    (shownURLs (cmdReceive w ("wss://".toList ++ h) destDir).trace =
        List.replicate 2 ("https://".toList ++ h ++ "/u/".toList ++ genToken w ++ "#".toList ++
          w.keyToBase64 w.generateKey.1) ∧
      constructed (cmdReceive w ("wss://".toList ++ h) destDir).trace =
        [("wss://".toList ++ h, genToken w, w.generateKey.1)]) ∧
    (shownURLs (cmdReceive w ("ws://".toList ++ h) destDir).trace =
        List.replicate 2 ("http://".toList ++ h ++ "/u/".toList ++ genToken w ++ "#".toList ++
          w.keyToBase64 w.generateKey.1) ∧
      constructed (cmdReceive w ("ws://".toList ++ h) destDir).trace =
        [("ws://".toList ++ h, genToken w, w.generateKey.1)]) := by
  have s1 := cmdSend_shown w ("wss://".toList ++ h) filePath info hstat
  have s2 := cmdSend_shown w ("ws://".toList ++ h) filePath info hstat
  have r1 := cmdReceive_shown w ("wss://".toList ++ h) destDir
  have r2 := cmdReceive_shown w ("ws://".toList ++ h) destDir
  rw [httpRelay_wss h hws] at s1 r1
  rw [httpRelay_ws h hwss] at s2 r2
  exact ⟨s1, s2, r1, r2⟩

/-- Witness of C1: the sample world, host `relay.example:8080`. -/
theorem pairing_url_exact_witness :
    (sampleWorld.osStat samplePath = Except.ok ⟨samplePath, 2048⟩ ∧
      ¬ "wss://".toList <:+: sampleHost ∧ ¬ "ws://".toList <:+: sampleHost) ∧
    shownURLs (cmdSend sampleWorld ("wss://".toList ++ sampleHost) samplePath).trace =
      List.replicate 2 ("https://".toList ++ sampleHost ++ "/d/".toList ++ genToken sampleWorld ++
        "#".toList ++ sampleWorld.keyToBase64 sampleWorld.generateKey.1) :=
  ⟨⟨rfl, by decide, by decide⟩,
    (pairing_url_exact sampleWorld sampleHost samplePath "inbox".toList ⟨samplePath, 2048⟩
      rfl (by decide) (by decide)).1.1⟩

/-- C2: the key appears only in the fragment.  For a relay address without `'#'` (the token
is hexadecimal, so it never has one) there is a part `pre` without `'#'` such that, whatever
key `crypto.GenerateKey` returns, the URL shown by `cmdSend` is `pre ++ "#" ++ KeyToBase64(k)`;
likewise for `cmdReceive`.  So all the URLs agree up to and including the first `'#'`. -/
theorem key_only_in_fragment (w : World) (relay filePath destDir : GoString) (info : FileInfo)
    (hstat : w.osStat filePath = Except.ok info) (hrelay : '#' ∉ relay) :
    (∃ pre : GoString, '#' ∉ pre ∧ ∀ (k : Key) (e : Option GoError),
      shownURLs (cmdSend (w.withKey k e) relay filePath).trace =
        List.replicate 2 (pre ++ '#' :: w.keyToBase64 k)) ∧
    (∃ pre : GoString, '#' ∉ pre ∧ ∀ (k : Key) (e : Option GoError),
      shownURLs (cmdReceive (w.withKey k e) relay destDir).trace =
        List.replicate 2 (pre ++ '#' :: w.keyToBase64 k)) := by
  have hpre : ∀ mark : GoString, '#' ∉ mark → '#' ∉ httpRelay relay ++ mark ++ genToken w := by
    intro mark hm hx
    rcases List.mem_append.mp hx with h1 | h1
    · rcases List.mem_append.mp h1 with h2 | h2
      · exact hash_not_mem_httpRelay relay hrelay h2
      · exact hm h2
    · exact hash_not_mem_genToken w h1
  refine ⟨⟨httpRelay relay ++ "/d/".toList ++ genToken w, hpre _ (by decide), ?_⟩,
    ⟨httpRelay relay ++ "/u/".toList ++ genToken w, hpre _ (by decide), ?_⟩⟩
  · intro k e
    have hs : (w.withKey k e).osStat filePath = Except.ok info := hstat
    rw [(cmdSend_shown (w.withKey k e) relay filePath info hs).1,
      List.append_assoc _ "#".toList]
    rfl
  · intro k e
    rw [(cmdReceive_shown (w.withKey k e) relay destDir).1,
      List.append_assoc _ "#".toList]
    rfl

/-- Witness of C2: the sample world and the relay `wss://relay.example:8080`. -/
theorem key_only_in_fragment_witness :
    (sampleWorld.osStat samplePath = Except.ok ⟨samplePath, 2048⟩ ∧
      '#' ∉ "wss://".toList ++ sampleHost) ∧
    ∃ pre : GoString, '#' ∉ pre ∧ ∀ (k : Key) (e : Option GoError),
      shownURLs (cmdSend (sampleWorld.withKey k e) ("wss://".toList ++ sampleHost)
        samplePath).trace = List.replicate 2 (pre ++ '#' :: sampleWorld.keyToBase64 k) :=
  ⟨⟨rfl, by decide⟩,
    (key_only_in_fragment sampleWorld ("wss://".toList ++ sampleHost) samplePath
      "inbox".toList ⟨samplePath, 2048⟩ rfl (by decide)).1⟩

/-! ## `genToken` -/

/-- C3: when the random source delivers 16 bytes, `genToken` returns their hex encoding:
32 characters, each among `0123456789abcdef`, and different 16-byte values give different
tokens. -/
theorem genToken_hex (w w' : World) (h : w.randBytes.length = 16)
    (h' : w'.randBytes.length = 16) :
    genToken w = hexEncodeToString w.randBytes ∧
      (genToken w).length = 32 ∧
      (∀ c ∈ genToken w, c ∈ "0123456789abcdef".toList) ∧
      (w.randBytes ≠ w'.randBytes → genToken w ≠ genToken w') := by
  refine ⟨genToken_of_full w h, ?_, genToken_digits w, ?_⟩
  · rw [genToken_of_full w h, hexEncodeToString_length, h]
  · intro hne heq
    rw [genToken_of_full w h, genToken_of_full w' h'] at heq
    exact hne (hexEncodeToString_injective _ _ heq)

/-- Witness of C3: the sample world against itself. -/
theorem genToken_hex_witness :
    sampleWorld.randBytes.length = 16 ∧
      genToken sampleWorld = hexEncodeToString sampleWorld.randBytes ∧
      (genToken sampleWorld).length = 32 :=
  ⟨rfl, (genToken_hex sampleWorld sampleWorld rfl rfl).1,
    (genToken_hex sampleWorld sampleWorld rfl rfl).2.1⟩

/-! ## `cmdSend` when the file is missing -/

/-- C10: when `os.Stat` fails, whatever the error, `cmdSend` returns an error whose message
is `"file not found: "` followed by the path, and its only step is the `os.Stat` call: no
token, no key, no URL, no `Sender`. -/
theorem cmdSend_stat_error (w : World) (relay filePath : GoString) (e : GoError)
    (hstat : w.osStat filePath = Except.error e) :
    cmdSend w relay filePath =
      ⟨some (GoError.errorf ("file not found: ".toList ++ filePath)), [Event.osStat filePath]⟩ := by
  unfold cmdSend
  rw [hstat]

/-- Witness of C10: a path that does not exist in the sample world. -/
theorem cmdSend_stat_error_witness :
    sampleWorld.osStat "gone.bin".toList = Except.error (GoError.foreign 1) ∧
      cmdSend sampleWorld ("wss://".toList ++ sampleHost) "gone.bin".toList =
        ⟨some (GoError.errorf ("file not found: ".toList ++ "gone.bin".toList)),
          [Event.osStat "gone.bin".toList]⟩ :=
  ⟨rfl, cmdSend_stat_error sampleWorld ("wss://".toList ++ sampleHost) "gone.bin".toList
    (GoError.foreign 1) rfl⟩

/-! ## Control flow of `cmdSend` and `cmdReceive` -/

/-- C5: in `cmdSend` the calls on the `Sender` are, in this order and each at most once,
`Connect`, `WaitForReceiver(5 minutes)`, `SendFile(filePath)`, `Close`; `WaitForReceiver` is
called only if `Connect` returned no error, `SendFile` only if `Connect` and
`WaitForReceiver` both returned no error. -/
theorem cmdSend_order (w : World) (relay filePath : GoString) :
    List.Sublist (peerOps (cmdSend w relay filePath).trace)
        [Event.senderConnect, Event.waitForReceiver (5 * timeMinute), Event.sendFile filePath,
          Event.senderClose] ∧
      5 * timeMinute = 300000000000 ∧
      (∀ d, Event.waitForReceiver d ∈ (cmdSend w relay filePath).trace →
        w.senderConnect (senderOf w relay) = none) ∧
      (∀ p, Event.sendFile p ∈ (cmdSend w relay filePath).trace →
        w.senderConnect (senderOf w relay) = none ∧
          w.waitForReceiver (senderOf w relay) (5 * timeMinute) = none) := by
  refine ⟨?_, by decide, ?_, ?_⟩
  all_goals
    cases hst : w.osStat filePath <;>
    cases hc : w.senderConnect (senderOf w relay) <;>
    cases hw : w.waitForReceiver (senderOf w relay) (5 * timeMinute) <;>
    cases hf : w.sendFile (senderOf w relay) filePath <;>
    simp only [senderOf] at hc hw hf <;>
    simp [cmdSend, cmdSendConnected, hst, hc, hw, hf, peerOps, Event.isPeerOp]

/-- C7: once `Connect` has succeeded, `Close` is called exactly once and is the last call
on the `Sender` / `Receiver` (indeed the last step of the command), on every way out of
`cmdSend` and `cmdReceive`; when `Connect` fails, `Close` is not called. -/
theorem close_after_connect (w : World) (relay filePath destDir : GoString) (info : FileInfo)
    (hstat : w.osStat filePath = Except.ok info) :
    (w.senderConnect (senderOf w relay) = none →
      (cmdSend w relay filePath).trace.count Event.senderClose = 1 ∧
        (peerOps (cmdSend w relay filePath).trace).getLast? = some Event.senderClose ∧
        (cmdSend w relay filePath).trace.getLast? = some Event.senderClose) ∧
    (w.senderConnect (senderOf w relay) ≠ none →
      Event.senderClose ∉ (cmdSend w relay filePath).trace) ∧
    (w.receiverConnect (receiverOf w relay) = none →
      (cmdReceive w relay destDir).trace.count Event.receiverClose = 1 ∧
        (peerOps (cmdReceive w relay destDir).trace).getLast? = some Event.receiverClose ∧
        (cmdReceive w relay destDir).trace.getLast? = some Event.receiverClose) ∧
    (w.receiverConnect (receiverOf w relay) ≠ none →
      Event.receiverClose ∉ (cmdReceive w relay destDir).trace) := by
  refine ⟨?_, ?_, ?_, ?_⟩
  · cases hc : w.senderConnect (senderOf w relay) <;>
    cases hw : w.waitForReceiver (senderOf w relay) (5 * timeMinute) <;>
    cases hf : w.sendFile (senderOf w relay) filePath <;>
    simp only [senderOf] at hc hw hf <;>
    simp [cmdSend, cmdSendConnected, hstat, hc, hw, hf, peerOps, Event.isPeerOp,
      List.count_cons]
  · cases hc : w.senderConnect (senderOf w relay) <;>
    simp only [senderOf] at hc <;>
    simp [cmdSend, hstat, hc]
  · cases hc : w.receiverConnect (receiverOf w relay) <;>
    rcases hf : w.receiveFile (receiverOf w relay) destDir with ⟨saved, _ | e⟩ <;>
    simp only [receiverOf] at hc hf <;>
    simp [cmdReceive, cmdReceiveConnected, hc, hf, peerOps, Event.isPeerOp, List.count_cons]
  · cases hc : w.receiverConnect (receiverOf w relay) <;>
    simp only [receiverOf] at hc <;>
    simp [cmdReceive, hc]

/-- Witness of C7: the world in which the receiver never joins. -/
theorem close_after_connect_witness :
    timeoutWorld.osStat samplePath = Except.ok ⟨samplePath, 2048⟩ ∧
    (timeoutWorld.senderConnect (senderOf timeoutWorld ("wss://".toList ++ sampleHost)) = none →
      (cmdSend timeoutWorld ("wss://".toList ++ sampleHost) samplePath).trace.count
          Event.senderClose = 1 ∧
        (peerOps (cmdSend timeoutWorld ("wss://".toList ++ sampleHost) samplePath).trace).getLast?
          = some Event.senderClose ∧
        (cmdSend timeoutWorld ("wss://".toList ++ sampleHost) samplePath).trace.getLast?
          = some Event.senderClose) :=
  ⟨rfl, (close_after_connect timeoutWorld ("wss://".toList ++ sampleHost) samplePath
    "inbox".toList ⟨samplePath, 2048⟩ rfl).1⟩

/-- C8: errors cross the command boundary unchanged.  When the file can be stat'ed,
`cmdSend` returns nil exactly when `Connect`, `WaitForReceiver` and `SendFile` all return
nil, and otherwise the error value of the first of them that failed; `cmdReceive` returns
nil exactly when `Connect` and `ReceiveFile` both return nil, and otherwise the error value
of the first that failed. -/
theorem errors_unchanged (w : World) (relay filePath destDir : GoString) (info : FileInfo)
    (hstat : w.osStat filePath = Except.ok info) :
    (((cmdSend w relay filePath).err = none ↔
        w.senderConnect (senderOf w relay) = none ∧
          w.waitForReceiver (senderOf w relay) (5 * timeMinute) = none ∧
          w.sendFile (senderOf w relay) filePath = none) ∧
      (w.senderConnect (senderOf w relay) ≠ none →
        (cmdSend w relay filePath).err = w.senderConnect (senderOf w relay)) ∧
      (w.senderConnect (senderOf w relay) = none →
        w.waitForReceiver (senderOf w relay) (5 * timeMinute) ≠ none →
        (cmdSend w relay filePath).err =
          w.waitForReceiver (senderOf w relay) (5 * timeMinute)) ∧
      (w.senderConnect (senderOf w relay) = none →
        w.waitForReceiver (senderOf w relay) (5 * timeMinute) = none →
        (cmdSend w relay filePath).err = w.sendFile (senderOf w relay) filePath)) ∧
    (((cmdReceive w relay destDir).err = none ↔
        w.receiverConnect (receiverOf w relay) = none ∧
          (w.receiveFile (receiverOf w relay) destDir).2 = none) ∧
      (w.receiverConnect (receiverOf w relay) ≠ none →
        (cmdReceive w relay destDir).err = w.receiverConnect (receiverOf w relay)) ∧
      (w.receiverConnect (receiverOf w relay) = none →
        (cmdReceive w relay destDir).err = (w.receiveFile (receiverOf w relay) destDir).2)) := by
  constructor
  · cases hc : w.senderConnect (senderOf w relay) <;>
    cases hw : w.waitForReceiver (senderOf w relay) (5 * timeMinute) <;>
    cases hf : w.sendFile (senderOf w relay) filePath <;>
    simp only [senderOf] at hc hw hf <;>
    simp [cmdSend, cmdSendConnected, hstat, hc, hw, hf]
  · cases hc : w.receiverConnect (receiverOf w relay) <;>
    rcases hf : w.receiveFile (receiverOf w relay) destDir with ⟨saved, _ | e⟩ <;>
    simp only [receiverOf] at hc hf <;>
    simp [cmdReceive, cmdReceiveConnected, hc, hf]

/-- Witness of C8: in the world where the receiver never joins, `cmdSend` returns the error
of `WaitForReceiver`. -/
theorem errors_unchanged_witness :
    timeoutWorld.osStat samplePath = Except.ok ⟨samplePath, 2048⟩ ∧
    (timeoutWorld.senderConnect (senderOf timeoutWorld ("ws://".toList ++ sampleHost)) = none →
      timeoutWorld.waitForReceiver (senderOf timeoutWorld ("ws://".toList ++ sampleHost))
        (5 * timeMinute) ≠ none →
      (cmdSend timeoutWorld ("ws://".toList ++ sampleHost) samplePath).err =
        timeoutWorld.waitForReceiver (senderOf timeoutWorld ("ws://".toList ++ sampleHost))
          (5 * timeMinute)) :=
  ⟨rfl, (errors_unchanged timeoutWorld ("ws://".toList ++ sampleHost) samplePath
    "inbox".toList ⟨samplePath, 2048⟩ rfl).1.2.2.1⟩

/-! ## The error of `crypto.GenerateKey` -/

/-- C4, as stated, fails: in a world where `crypto.GenerateKey` returns an error (and the
random read for the token succeeds), `cmdSend` and `cmdReceive` still show a pairing URL,
construct the `Sender` / `Receiver`, call `Connect` and return nil. -/
theorem generateKey_failure_not_fatal :
    keyFailWorld.generateKey.2 ≠ none ∧
      (keyFailWorld.randErr = none ∧ keyFailWorld.randBytes.length = 16) ∧
      (cmdSend keyFailWorld ("wss://".toList ++ sampleHost) samplePath).err = none ∧
      shownURLs (cmdSend keyFailWorld ("wss://".toList ++ sampleHost) samplePath).trace =
        List.replicate 2
          "https://relay.example:8080/d/00112233445566778899aabbccddeeff#".toList ∧
      Event.senderConnect ∈
        (cmdSend keyFailWorld ("wss://".toList ++ sampleHost) samplePath).trace ∧
      (cmdReceive keyFailWorld ("wss://".toList ++ sampleHost) "inbox".toList).err = none ∧
      shownURLs (cmdReceive keyFailWorld ("wss://".toList ++ sampleHost) "inbox".toList).trace =
        List.replicate 2
          "https://relay.example:8080/u/00112233445566778899aabbccddeeff#".toList ∧
      Event.receiverConnect ∈
        (cmdReceive keyFailWorld ("wss://".toList ++ sampleHost) "inbox".toList).trace := by
  decide

/-- C4 as amended: `cmdSend` and `cmdReceive` do not look at the error result of
`crypto.GenerateKey`.  In every run in which the random read for the token succeeds,
whatever that error is, the command runs exactly as with the same key and no error: same
steps, same returned value; it shows the pairing URL built from the token and the returned
key, constructs the `Sender` / `Receiver` with them and calls `Connect`. -/
theorem generateKey_error_ignored (w : World) (keyErr : Option GoError)
    (relay filePath destDir : GoString)
    (hrand : w.randErr = none ∧ w.randBytes.length = 16) :
    cmdSend (w.withKeyError keyErr) relay filePath = cmdSend w relay filePath ∧
      cmdReceive (w.withKeyError keyErr) relay destDir = cmdReceive w relay destDir ∧
      shownURLs (cmdReceive (w.withKeyError keyErr) relay destDir).trace =
        List.replicate 2 (httpRelay relay ++ "/u/".toList ++
          hexEncodeToString w.randBytes ++ "#".toList ++ w.keyToBase64 w.generateKey.1) ∧
      constructed (cmdReceive (w.withKeyError keyErr) relay destDir).trace =
        [(relay, hexEncodeToString w.randBytes, w.generateKey.1)] ∧
      Event.receiverConnect ∈ (cmdReceive (w.withKeyError keyErr) relay destDir).trace ∧
      (∀ info : FileInfo, w.osStat filePath = Except.ok info →
        shownURLs (cmdSend (w.withKeyError keyErr) relay filePath).trace =
          List.replicate 2 (httpRelay relay ++ "/d/".toList ++
            hexEncodeToString w.randBytes ++ "#".toList ++ w.keyToBase64 w.generateKey.1) ∧
        constructed (cmdSend (w.withKeyError keyErr) relay filePath).trace =
          [(relay, hexEncodeToString w.randBytes, w.generateKey.1)] ∧
        Event.senderConnect ∈ (cmdSend (w.withKeyError keyErr) relay filePath).trace) := by
  have hs : cmdSend (w.withKeyError keyErr) relay filePath = cmdSend w relay filePath := rfl
  have hr : cmdReceive (w.withKeyError keyErr) relay destDir = cmdReceive w relay destDir :=
    rfl
  have htok := genToken_of_full w hrand.2
  refine ⟨hs, hr, ?_, ?_, ?_, ?_⟩
  · rw [hr, (cmdReceive_shown w relay destDir).1, htok]
  · rw [hr, (cmdReceive_shown w relay destDir).2, htok]
  · rw [hr]
    cases hc : w.receiverConnect (receiverOf w relay) <;>
    simp only [receiverOf] at hc <;>
    simp [cmdReceive, hc]
  · intro info hstat
    rw [hs, (cmdSend_shown w relay filePath info hstat).1,
      (cmdSend_shown w relay filePath info hstat).2, htok]
    refine ⟨rfl, rfl, ?_⟩
    cases hc : w.senderConnect (senderOf w relay) <;>
    simp only [senderOf] at hc <;>
    simp [cmdSend, hstat, hc]

/-- Witness of C4 as amended: the sample world, with the error of `GenerateKey` set. -/
theorem generateKey_error_ignored_witness :
    (sampleWorld.randErr = none ∧ sampleWorld.randBytes.length = 16) ∧
      cmdSend (sampleWorld.withKeyError (some (GoError.foreign 8)))
          ("wss://".toList ++ sampleHost) samplePath =
        cmdSend sampleWorld ("wss://".toList ++ sampleHost) samplePath :=
  ⟨⟨rfl, rfl⟩,
    (generateKey_error_ignored sampleWorld (some (GoError.foreign 8))
      ("wss://".toList ++ sampleHost) samplePath "inbox".toList ⟨rfl, rfl⟩).1⟩

/-! ## Waiting for the peer -/

/-- C6, as stated, fails: in the sample world `Connect` succeeds in the receive role and
the calls on the `Receiver` are `Connect`, `ReceiveFile`, `Close`: no wait in between. -/
theorem receive_has_no_wait :
    sampleWorld.receiverConnect (receiverOf sampleWorld ("wss://".toList ++ sampleHost)) = none ∧
      peerOps (cmdReceive sampleWorld ("wss://".toList ++ sampleHost) "inbox".toList).trace =
        [Event.receiverConnect, Event.receiveFile "inbox".toList, Event.receiverClose] := by
  decide

/-- C6 as amended: only the send role has a wait-for-peer step.  In `cmdSend`, after
`Connect` succeeds, `WaitForReceiver` is called with a 5-minute timeout and `SendFile` is
called exactly when that wait returned no error.  In `cmdReceive` no wait is ever called:
after `Connect` succeeds `ReceiveFile` is called directly. -/
theorem wait_only_in_send_role (w : World) (relay filePath destDir : GoString)
    (info : FileInfo) (hstat : w.osStat filePath = Except.ok info) :
    (∀ d, Event.waitForReceiver d ∉ (cmdReceive w relay destDir).trace) ∧
    (w.receiverConnect (receiverOf w relay) = none →
      peerOps (cmdReceive w relay destDir).trace =
        [Event.receiverConnect, Event.receiveFile destDir, Event.receiverClose]) ∧
    (w.senderConnect (senderOf w relay) = none →
      (peerOps (cmdSend w relay filePath).trace).take 2 =
          [Event.senderConnect, Event.waitForReceiver (5 * timeMinute)] ∧
        (Event.sendFile filePath ∈ (cmdSend w relay filePath).trace ↔
          w.waitForReceiver (senderOf w relay) (5 * timeMinute) = none)) := by
  refine ⟨?_, ?_, ?_⟩
  · intro d
    cases hc : w.receiverConnect (receiverOf w relay) <;>
    rcases hf : w.receiveFile (receiverOf w relay) destDir with ⟨saved, _ | e⟩ <;>
    simp only [receiverOf] at hc hf <;>
    simp [cmdReceive, cmdReceiveConnected, hc, hf]
  · cases hc : w.receiverConnect (receiverOf w relay) <;>
    rcases hf : w.receiveFile (receiverOf w relay) destDir with ⟨saved, _ | e⟩ <;>
    simp only [receiverOf] at hc hf <;>
    simp [cmdReceive, cmdReceiveConnected, hc, hf, peerOps, Event.isPeerOp]
  · cases hc : w.senderConnect (senderOf w relay) <;>
    cases hw : w.waitForReceiver (senderOf w relay) (5 * timeMinute) <;>
    cases hf : w.sendFile (senderOf w relay) filePath <;>
    simp only [senderOf] at hc hw hf <;>
    simp [cmdSend, cmdSendConnected, hstat, hc, hw, hf, peerOps, Event.isPeerOp]

/-- Witness of C6 as amended: the sample world. -/
theorem wait_only_in_send_role_witness :
    sampleWorld.osStat samplePath = Except.ok ⟨samplePath, 2048⟩ ∧
      ∀ d, Event.waitForReceiver d ∉
        (cmdReceive sampleWorld ("wss://".toList ++ sampleHost) "inbox".toList).trace :=
  ⟨rfl, (wait_only_in_send_role sampleWorld ("wss://".toList ++ sampleHost) samplePath
    "inbox".toList ⟨samplePath, 2048⟩ rfl).1⟩

/-! ## `progress` -/

theorem roundHalfEven_ge_floor (x : ℚ) : ⌊x⌋ ≤ roundHalfEven x := by
  unfold roundHalfEven
  split_ifs <;> omega

theorem roundHalfEven_le_floor_succ (x : ℚ) : roundHalfEven x ≤ ⌊x⌋ + 1 := by
  unfold roundHalfEven
  split_ifs <;> omega

theorem roundHalfEven_intCast (n : Int) : roundHalfEven (n : ℚ) = n := by
  unfold roundHalfEven
  rw [Int.floor_intCast, sub_self, if_pos (by norm_num)]

theorem roundHalfEven_mono {x y : ℚ} (h : x ≤ y) : roundHalfEven x ≤ roundHalfEven y := by
  rcases lt_or_eq_of_le (Int.floor_le_floor h) with hlt | heq
  · calc roundHalfEven x ≤ ⌊x⌋ + 1 := roundHalfEven_le_floor_succ x
      _ ≤ ⌊y⌋ := hlt
      _ ≤ roundHalfEven y := roundHalfEven_ge_floor y
  · have hfr : x - ⌊x⌋ ≤ y - ⌊y⌋ := by rw [heq]; linarith
    unfold roundHalfEven
    rw [heq]
    rw [heq] at hfr
    split_ifs <;> first | omega | (exfalso; linarith)

theorem roundHalfEven_eq_of_near (x : ℚ) (m : Int) (h1 : (m : ℚ) - 1 / 2 < x)
    (h2 : x < (m : ℚ) + 1 / 2) : roundHalfEven x = m := by
  rcases lt_or_le x (m : ℚ) with hlt | hge
  · have hf : ⌊x⌋ = m - 1 := by
      rw [Int.floor_eq_iff]
      push_cast
      constructor <;> linarith
    unfold roundHalfEven
    rw [hf]
    push_cast
    rw [if_neg (by linarith), if_pos (by linarith)]
    omega
  · have hf : ⌊x⌋ = m := by
      rw [Int.floor_eq_iff]
      constructor <;> linarith
    unfold roundHalfEven
    rw [hf, if_pos (by linarith)]

theorem ulp_pos (e : Int) : (0 : ℚ) < 2 ^ e := zpow_pos (by norm_num) e

theorem zpow_split (e : Int) (k : Nat) :
    (2 : ℚ) ^ (e - 52 + k) = 2 ^ (e - 52) * 2 ^ k := by
  rw [zpow_add₀ (by norm_num), zpow_natCast]

theorem scaled_bounds (x : ℚ) (e : Int) (h1 : (2 : ℚ) ^ e ≤ x) (h2 : x < 2 ^ (e + 1)) :
    (2 : ℚ) ^ (52 : Nat) ≤ x / 2 ^ (e - 52) ∧ x / 2 ^ (e - 52) < (2 : ℚ) ^ (53 : Nat) := by
  have hu := ulp_pos (e - 52)
  have e1 : (2 : ℚ) ^ e = 2 ^ (e - 52) * 2 ^ (52 : Nat) := by
    rw [← zpow_split]
    congr 1
    omega
  have e2 : (2 : ℚ) ^ (e + 1) = 2 ^ (e - 52) * 2 ^ (53 : Nat) := by
    rw [← zpow_split]
    congr 1
    omega
  constructor
  · rw [le_div_iff₀ hu, mul_comm, ← e1]
    exact h1
  · rw [div_lt_iff₀ hu, mul_comm, ← e2]
    exact h2

theorem log_bounds (x : ℚ) (hx : 0 < x) :
    (2 : ℚ) ^ Int.log 2 x ≤ x ∧ x < 2 ^ (Int.log 2 x + 1) := by
  have h1 := Int.zpow_log_le_self (b := 2) (r := x) (by norm_num) hx
  have h2 := Int.lt_zpow_succ_log_self (b := 2) (by norm_num) x
  exact ⟨by exact_mod_cast h1, by exact_mod_cast h2⟩

theorem log_eq_of_bounds (x : ℚ) (e : Int) (h1 : (2 : ℚ) ^ e ≤ x) (h2 : x < 2 ^ (e + 1)) :
    Int.log 2 x = e := by
  have hx : 0 < x := lt_of_lt_of_le (ulp_pos e) h1
  have a : e ≤ Int.log 2 x :=
    (Int.zpow_le_iff_le_log (b := 2) (by norm_num) hx).mp (by exact_mod_cast h1)
  have b : Int.log 2 x < e + 1 :=
    (Int.lt_zpow_iff_log_lt (b := 2) (by norm_num) hx).mp (by exact_mod_cast h2)
  omega

theorem roundMag_of_pos (x : ℚ) (hx : 0 < x) :
    roundMag x =
      roundHalfEven (x / 2 ^ (Int.log 2 x - 52)) * 2 ^ (Int.log 2 x - 52) := by
  unfold roundMag
  rw [if_neg (not_le.mpr hx)]

theorem roundMag_nonpos (x : ℚ) (hx : x ≤ 0) : roundMag x = 0 := by
  unfold roundMag
  rw [if_pos hx]

theorem roundMag_lower (x : ℚ) (hx : 0 < x) : (2 : ℚ) ^ Int.log 2 x ≤ roundMag x := by
  have hb := log_bounds x hx
  have hs := scaled_bounds x _ hb.1 hb.2
  have hu := ulp_pos (Int.log 2 x - 52)
  have hc : (((2 : Int) ^ (52 : Nat) : Int) : ℚ) = (2 : ℚ) ^ (52 : Nat) := by norm_num
  have h52 : (((2 : Int) ^ (52 : Nat) : Int) : ℚ) ≤
      (roundHalfEven (x / 2 ^ (Int.log 2 x - 52)) : ℚ) := by
    have := roundHalfEven_mono (hc ▸ hs.1)
    rw [roundHalfEven_intCast] at this
    exact_mod_cast this
  have e1 : (2 : ℚ) ^ Int.log 2 x = 2 ^ (Int.log 2 x - 52) * 2 ^ (52 : Nat) := by
    rw [← zpow_split]
    congr 1
    omega
  rw [roundMag_of_pos x hx, e1, mul_comm, ← hc]
  exact mul_le_mul_of_nonneg_right h52 hu.le

theorem roundMag_upper (x : ℚ) (hx : 0 < x) : roundMag x ≤ (2 : ℚ) ^ (Int.log 2 x + 1) := by
  have hb := log_bounds x hx
  have hs := scaled_bounds x _ hb.1 hb.2
  have hu := ulp_pos (Int.log 2 x - 52)
  have hc : (((2 : Int) ^ (53 : Nat) : Int) : ℚ) = (2 : ℚ) ^ (53 : Nat) := by norm_num
  have h53 : (roundHalfEven (x / 2 ^ (Int.log 2 x - 52)) : ℚ) ≤
      (((2 : Int) ^ (53 : Nat) : Int) : ℚ) := by
    have := roundHalfEven_mono (hc ▸ hs.2.le)
    rw [roundHalfEven_intCast] at this
    exact_mod_cast this
  have e1 : (2 : ℚ) ^ (Int.log 2 x + 1) = 2 ^ (Int.log 2 x - 52) * 2 ^ (53 : Nat) := by
    rw [← zpow_split]
    congr 1
    omega
  rw [roundMag_of_pos x hx, e1, mul_comm _ ((2 : ℚ) ^ (53 : Nat)), ← hc]
  exact mul_le_mul_of_nonneg_right h53 hu.le

theorem roundMag_nonneg (x : ℚ) : 0 ≤ roundMag x := by
  rcases le_or_lt x 0 with h | h
  · rw [roundMag_nonpos x h]
  · exact le_trans (ulp_pos _).le (roundMag_lower x h)

theorem roundMag_pos (x : ℚ) (hx : 0 < x) : 0 < roundMag x :=
  lt_of_lt_of_le (ulp_pos _) (roundMag_lower x hx)

theorem roundMag_mono {x y : ℚ} (h : x ≤ y) : roundMag x ≤ roundMag y := by
  rcases le_or_lt x 0 with hx | hx
  · rw [roundMag_nonpos x hx]
    exact roundMag_nonneg y
  · have hy : 0 < y := lt_of_lt_of_le hx h
    rcases lt_or_eq_of_le (Int.log_mono_right (b := 2) hx h) with hlt | heq
    · calc roundMag x ≤ (2 : ℚ) ^ (Int.log 2 x + 1) := roundMag_upper x hx
        _ ≤ (2 : ℚ) ^ Int.log 2 y := zpow_le_zpow_right₀ (by norm_num) hlt
        _ ≤ roundMag y := roundMag_lower y hy
    · rw [roundMag_of_pos x hx, roundMag_of_pos y hy, heq]
      have hu := ulp_pos (Int.log 2 y - 52)
      apply mul_le_mul_of_nonneg_right _ hu.le
      have : x / 2 ^ (Int.log 2 y - 52) ≤ y / 2 ^ (Int.log 2 y - 52) :=
        div_le_div_of_nonneg_right h hu.le
      exact_mod_cast roundHalfEven_mono this

theorem roundMag_cert (x : ℚ) (e m : Int) (h1 : (2 : ℚ) ^ e ≤ x) (h2 : x < 2 ^ (e + 1))
    (hm : roundHalfEven (x / 2 ^ (e - 52)) = m) : roundMag x = m * 2 ^ (e - 52) := by
  have hx : 0 < x := lt_of_lt_of_le (ulp_pos e) h1
  rw [roundMag_of_pos x hx, log_eq_of_bounds x e h1 h2, hm]

theorem roundMag_exact (x : ℚ) (e m : Int) (h1 : (2 : ℚ) ^ e ≤ x) (h2 : x < 2 ^ (e + 1))
    (hm : x / 2 ^ (e - 52) = m) : roundMag x = x := by
  rw [roundMag_cert x e m h1 h2 (by rw [hm, roundHalfEven_intCast]), ← hm,
    div_mul_cancel₀ _ (ulp_pos _).ne']

theorem roundMag_one : roundMag 1 = 1 := by
  apply roundMag_exact 1 0 (2 ^ 52) <;> norm_num

theorem roundMag_hundred : roundMag 100 = 100 := by
  apply roundMag_exact 100 6 (100 * 2 ^ 46) <;> norm_num

theorem roundMag_forty : roundMag 40 = 40 := by
  apply roundMag_exact 40 5 (40 * 2 ^ 47) <;> norm_num


theorem two_pow_neg (k : Nat) : (2 : ℚ) ^ (-(k : Int)) = ((2 : ℚ) ^ k)⁻¹ := by
  rw [zpow_neg, zpow_natCast]

theorem roundMag_tie : roundMag 9007199254740993 = 9007199254740992 := by
  have hf : ⌊(9007199254740993 : ℚ) / 2 ^ ((53 : Int) - 52)⌋ = 4503599627370496 := by
    rw [Int.floor_eq_iff]
    norm_num
  have hr : roundHalfEven ((9007199254740993 : ℚ) / 2 ^ ((53 : Int) - 52)) =
      4503599627370496 := by
    unfold roundHalfEven
    rw [hf]
    norm_num
  rw [roundMag_cert _ 53 4503599627370496 (by norm_num) (by norm_num) hr]
  norm_num

theorem roundMag_two_pow_53 : roundMag 9007199254740992 = 9007199254740992 := by
  apply roundMag_exact _ 53 4503599627370496 <;> norm_num

theorem roundMag_below_one :
    roundMag (1 - 1 / 9007199254740992) = 1 - 1 / 9007199254740992 := by
  apply roundMag_exact _ (-1) 9007199254740991 <;> norm_num

theorem roundMag_below_hundred :
    roundMag ((1 - 1 / 9007199254740992) * 100) = 100 - 1 / 70368744177664 := by
  rw [roundMag_cert _ 6 (7036874417766400 - 1) (by norm_num) (by norm_num)
    (roundHalfEven_eq_of_near _ _ (by norm_num) (by norm_num))]
  norm_num

theorem roundMag_below_forty :
    roundMag ((100 - 1 / 70368744177664) / (5 / 2)) = 40 - 1 / 140737488355328 := by
  rw [roundMag_cert _ 5 (5629499534213120 - 1) (by norm_num) (by norm_num)
    (roundHalfEven_eq_of_near _ _ (by norm_num) (by norm_num))]
  norm_num


theorem roundMag_int_exact (n : Int) (h0 : 0 ≤ n) (h : n ≤ 9007199254740992) :
    roundMag (n : ℚ) = n := by
  rcases eq_or_lt_of_le h0 with hz | hpos
  · rw [← hz]
    exact roundMag_nonpos _ (by norm_num)
  · have hx : (0 : ℚ) < n := by exact_mod_cast hpos
    have hb := log_bounds (n : ℚ) hx
    have hle : (n : ℚ) ≤ 9007199254740992 := by exact_mod_cast h
    have he0 : 0 ≤ Int.log 2 (n : ℚ) := by
      apply (Int.zpow_le_iff_le_log (b := 2) (by norm_num) hx).mp
      have : (1 : ℚ) ≤ n := by exact_mod_cast hpos
      simpa using this
    have he53 : Int.log 2 (n : ℚ) ≤ 53 := by
      by_contra hc
      have h54 : (54 : Int) ≤ Int.log 2 (n : ℚ) := by omega
      have : (2 : ℚ) ^ (54 : Int) ≤ 2 ^ Int.log 2 (n : ℚ) :=
        zpow_le_zpow_right₀ (by norm_num) h54
      have h2 : (2 : ℚ) ^ (54 : Int) ≤ 9007199254740992 := le_trans this (le_trans hb.1 hle)
      norm_num at h2
    rcases eq_or_lt_of_le he53 with h53 | hlt
    · rw [h53] at hb
      have : (9007199254740992 : ℚ) ≤ n := by
        have := hb.1
        norm_num at this
        exact this
      have hn : (n : ℚ) = 9007199254740992 := le_antisymm hle this
      rw [hn]
      exact roundMag_two_pow_53
    · obtain ⟨k, hk⟩ : ∃ k : Nat, Int.log 2 (n : ℚ) - 52 = -(k : Int) :=
        ⟨(52 - Int.log 2 (n : ℚ)).toNat, by omega⟩
      apply roundMag_exact _ _ (n * 2 ^ k) hb.1 hb.2
      rw [hk, two_pow_neg, div_inv_eq_mul]
      push_cast
      ring

theorem progress_values (sent total : Int) (h0 : 0 ≤ sent) (hle : sent ≤ total)
    (ht : 0 < total) :
    progressPct sent total = some ⟨false, pctMag sent total⟩ ∧
      progressFilled sent total = some ⌊cellsMag sent total⌋ ∧
      0 ≤ cellsMag sent total ∧ cellsMag sent total ≤ 40 := by
  have hs : (0 : ℚ) ≤ sent := by exact_mod_cast h0
  have htq : (0 : ℚ) < total := by exact_mod_cast ht
  have hst : (sent : ℚ) ≤ total := by exact_mod_cast hle
  have hT : 0 < roundMag total := roundMag_pos _ htq
  have hS : 0 ≤ roundMag sent := roundMag_nonneg _
  have hq1 : roundMag (roundMag sent / roundMag total) ≤ 1 := by
    have h : roundMag sent / roundMag total ≤ 1 := by
      rw [div_le_one hT]
      exact roundMag_mono hst
    have := roundMag_mono h
    rwa [roundMag_one] at this
  have hp : pctMag sent total ≤ 100 := by
    have h : roundMag (roundMag sent / roundMag total) * 100 ≤ 100 := by linarith
    have := roundMag_mono h
    rwa [roundMag_hundred] at this
  have hc : cellsMag sent total ≤ 40 := by
    have h : pctMag sent total / (5 / 2) ≤ 40 := by
      rw [div_le_iff₀ (by norm_num)]
      linarith
    have := roundMag_mono h
    rwa [roundMag_forty] at this
  have hc0 : 0 ≤ cellsMag sent total := roundMag_nonneg _
  have hpct : progressPct sent total = some ⟨false, pctMag sent total⟩ := by
    unfold progressPct float64 F64.div F64.mul pctMag
    simp only [abs_of_nonneg hs, abs_of_nonneg htq.le]
    rw [if_neg hT.ne']
    simp [not_lt.mpr h0, not_lt.mpr ht.le]
  refine ⟨hpct, ?_, hc0, hc⟩
  have hf0 : 0 ≤ ⌊cellsMag sent total⌋ := Int.floor_nonneg.mpr hc0
  have hf40 : ⌊cellsMag sent total⌋ ≤ 40 := by
    have := Int.floor_le_floor hc
    rwa [show ((40 : ℚ)) = ((40 : Int) : ℚ) by norm_num, Int.floor_intCast] at this
  unfold progressFilled
  rw [hpct]
  unfold F64.div F64.toInt cellsMag
  simp only [Option.some_bind]
  rw [if_neg (by norm_num)]
  simp only [Option.some_bind, Bool.xor_false, Bool.false_eq_true, if_false]
  unfold cellsMag at hf0 hf40
  rw [if_pos ⟨by omega, by omega⟩]


theorem flatten_replicate_singleton (n : Nat) (c : Char) :
    (List.replicate n [c]).flatten = List.replicate n c := by
  induction n with
  | zero => rfl
  | succ n ih => simp [List.replicate_succ, ih]

theorem cellsMag_mono (sent sent' total : Int) (hle : sent ≤ sent') (ht : 0 < total) :
    cellsMag sent total ≤ cellsMag sent' total := by
  have htq : (0 : ℚ) < total := by exact_mod_cast ht
  have hss : (sent : ℚ) ≤ sent' := by exact_mod_cast hle
  have hT : 0 < roundMag total := roundMag_pos _ htq
  unfold cellsMag pctMag
  apply roundMag_mono
  apply div_le_div_of_nonneg_right _ (by norm_num)
  apply roundMag_mono
  apply mul_le_mul_of_nonneg_right _ (by norm_num)
  apply roundMag_mono
  exact div_le_div_of_nonneg_right (roundMag_mono hss) hT.le

theorem cellsMag_full (total : Int) (ht : 0 < total) : cellsMag total total = 40 := by
  have htq : (0 : ℚ) < total := by exact_mod_cast ht
  have hT : 0 < roundMag total := roundMag_pos _ htq
  unfold cellsMag pctMag
  rw [div_self hT.ne', roundMag_one, one_mul, roundMag_hundred,
    show (100 : ℚ) / (5 / 2) = 40 by norm_num, roundMag_forty]

theorem cellsMag_below (sent total : Int) (h0 : 0 ≤ sent) (hlt : sent < total)
    (h53 : total ≤ 9007199254740992) :
    cellsMag sent total ≤ 40 - 1 / 140737488355328 := by
  have ht : 0 < total := lt_of_le_of_lt h0 hlt
  have htq : (0 : ℚ) < total := by exact_mod_cast ht
  have hs1 : (sent : ℚ) ≤ total - 1 := by exact_mod_cast Int.le_sub_one_of_lt hlt
  have h53q : (total : ℚ) ≤ 9007199254740992 := by exact_mod_cast h53
  have hq : (sent : ℚ) / total ≤ 1 - 1 / 9007199254740992 := by
    rw [div_le_iff₀ htq]
    have : (total : ℚ) / 9007199254740992 ≤ 1 := by
      rw [div_le_one (by norm_num)]
      exact h53q
    have e : (1 - 1 / 9007199254740992) * (total : ℚ) = total - total / 9007199254740992 := by
      ring
    rw [e]
    linarith
  unfold cellsMag pctMag
  rw [roundMag_int_exact sent h0 (le_trans hlt.le h53), roundMag_int_exact total ht.le h53,
    ← roundMag_below_forty]
  apply roundMag_mono
  apply div_le_div_of_nonneg_right _ (by norm_num)
  rw [← roundMag_below_hundred]
  apply roundMag_mono
  apply mul_le_mul_of_nonneg_right _ (by norm_num)
  rw [← roundMag_below_one]
  exact roundMag_mono hq

theorem cellsMag_23_40 : cellsMag 23 40 = 6473924464345087 / 281474976710656 := by
  have hq : roundMag ((23 : ℚ) / 40) = 2589569785738035 / 4503599627370496 := by
    rw [roundMag_cert _ (-1) 5179139571476070 (by norm_num) (by norm_num)
      (roundHalfEven_eq_of_near _ _ (by norm_num) (by norm_num))]
    norm_num
  have hp : roundMag ((2589569785738035 : ℚ) / 4503599627370496 * 100) =
      8092405580431359 / 140737488355328 := by
    rw [roundMag_cert _ 5 8092405580431359 (by norm_num) (by norm_num)
      (roundHalfEven_eq_of_near _ _ (by norm_num) (by norm_num))]
    norm_num
  have hr : roundMag ((8092405580431359 : ℚ) / 140737488355328 / (5 / 2)) =
      6473924464345087 / 281474976710656 := by
    rw [roundMag_cert _ 4 6473924464345087 (by norm_num) (by norm_num)
      (roundHalfEven_eq_of_near _ _ (by norm_num) (by norm_num))]
    norm_num
  have h23 := roundMag_int_exact 23 (by norm_num) (by norm_num)
  have h40 := roundMag_int_exact 40 (by norm_num) (by norm_num)
  unfold cellsMag pctMag
  push_cast at h23 h40 ⊢
  rw [h23, h40, hq, hp, hr]

theorem cellsMag_past_2_53 : cellsMag 9007199254740992 9007199254740993 = 40 := by
  unfold cellsMag pctMag
  push_cast
  rw [roundMag_two_pow_53, roundMag_tie, div_self (by norm_num), roundMag_one, one_mul,
    roundMag_hundred, show (100 : ℚ) / (5 / 2) = 40 by norm_num, roundMag_forty]

/-- C9, as stated, fails, because `progress` computes in `float64`.  With 23 of 40 bytes
sent the bar has 22 filled cells, where the exact quotient gives 23; and with `2^53` of
`2^53 + 1` bytes sent the bar already has all 40 cells filled, although `sent < total`. -/
theorem progress_not_exact :
    (progressFilled 23 40 = some 22 ∧ ⌊((23 : ℚ) / 40 * 100) / (5 / 2)⌋ = 23) ∧
      ((9007199254740992 : Int) < 9007199254740993 ∧
        progressFilled 9007199254740992 9007199254740993 = some 40) := by
  refine ⟨⟨?_, ?_⟩, by norm_num, ?_⟩
  · rw [(progress_values 23 40 (by norm_num) (by norm_num) (by norm_num)).2.1, cellsMag_23_40,
      Option.some_inj, Int.floor_eq_iff]
    norm_num
  · rw [Int.floor_eq_iff]
    norm_num
  · rw [(progress_values 9007199254740992 9007199254740993 (by norm_num) (by norm_num)
      (by norm_num)).2.1, cellsMag_past_2_53, Option.some_inj, Int.floor_eq_iff]
    norm_num

/-- C9 as amended: for `total > 0` and `0 ≤ sent ≤ sent' ≤ total`, with the percentage
computed in `float64` as the code does, the number `n` of filled cells `int(pct/2.5)` lies
between 0 and 40, neither `strings.Repeat` panics, and the bar is `n` filled cells followed
by `40 - n` empty cells, 40 cells in all, printed without padding; the filled count does
not decrease from `sent` to `sent'`; it is 40 when `sent = total`, and, when `total` is at
most `2^53`, only then. -/
theorem progress_bar (sent sent' total : Int) (htotal : 0 < total) (h0 : 0 ≤ sent)
    (hle : sent ≤ sent') (hle' : sent' ≤ total) :
    ∃ (n n' : Int) (pct : F64),
      progressFilled sent total = some n ∧ progressFilled sent' total = some n' ∧
      progressPct sent total = some pct ∧
      0 ≤ n ∧ n ≤ 40 ∧
      progress sent total =
        Drawn.printed ("\r  [".toList ++
          (List.replicate n.toNat '█' ++ List.replicate (40 - n).toNat '░') ++ "] ".toList ++
          fmtFloat0 pct ++ "%".toList) ∧
      (List.replicate n.toNat '█' ++ List.replicate (40 - n).toNat '░').length = 40 ∧
      n ≤ n' ∧
      (sent = total → n = 40) ∧
      (total ≤ 9007199254740992 → n = 40 → sent = total) := by
  obtain ⟨hpct, hfill, hc0, hc40⟩ :=
    progress_values sent total h0 (le_trans hle hle') htotal
  obtain ⟨_, hfill', _, _⟩ := progress_values sent' total (le_trans h0 hle) hle' htotal
  have hlo : 0 ≤ ⌊cellsMag sent total⌋ := Int.floor_nonneg.mpr hc0
  have hhi : ⌊cellsMag sent total⌋ ≤ 40 := by
    have := Int.floor_le_floor hc40
    rwa [show (40 : ℚ) = ((40 : Int) : ℚ) by norm_num, Int.floor_intCast] at this
  have hlen : (List.replicate ⌊cellsMag sent total⌋.toNat '█' ++
      List.replicate (40 - ⌊cellsMag sent total⌋).toNat '░').length = 40 := by
    rw [List.length_append, List.length_replicate, List.length_replicate]
    omega
  refine ⟨⌊cellsMag sent total⌋, ⌊cellsMag sent' total⌋, ⟨false, pctMag sent total⟩,
    hfill, hfill', hpct, hlo, hhi, ?_, hlen, ?_, ?_, ?_⟩
  · unfold progress
    rw [hpct, hfill]
    simp only []
    unfold stringsRepeat
    rw [if_neg (by omega), if_neg (by omega)]
    simp only [flatten_replicate_singleton]
    unfold padRight
    rw [hlen, Nat.sub_self, List.replicate_zero, List.append_nil]
  · exact Int.floor_le_floor (cellsMag_mono sent sent' total hle htotal)
  · intro heq
    rw [heq, cellsMag_full total htotal,
      show (40 : ℚ) = ((40 : Int) : ℚ) by norm_num, Int.floor_intCast]
  · intro h53 hn
    by_contra hne
    have hlt : sent < total := lt_of_le_of_ne (le_trans hle hle') hne
    have hb := cellsMag_below sent total h0 hlt h53
    have h40 : ((40 : Int) : ℚ) ≤ cellsMag sent total := by
      rw [← hn]
      exact Int.floor_le _
    push_cast at h40
    linarith

/-- Witness of C9 as amended: 3 of 7 bytes sent, then 5 of 7. -/
theorem progress_bar_witness :
    ((0 : Int) < 7 ∧ (0 : Int) ≤ 3 ∧ (3 : Int) ≤ 5 ∧ (5 : Int) ≤ 7) ∧
    ∃ (n n' : Int) (pct : F64),
      progressFilled 3 7 = some n ∧ progressFilled 5 7 = some n' ∧
      progressPct 3 7 = some pct ∧
      0 ≤ n ∧ n ≤ 40 ∧
      progress 3 7 =
        Drawn.printed ("\r  [".toList ++
          (List.replicate n.toNat '█' ++ List.replicate (40 - n).toNat '░') ++ "] ".toList ++
          fmtFloat0 pct ++ "%".toList) ∧
      (List.replicate n.toNat '█' ++ List.replicate (40 - n).toNat '░').length = 40 ∧
      n ≤ n' ∧
      ((3 : Int) = 7 → n = 40) ∧
      ((7 : Int) ≤ 9007199254740992 → n = 40 → (3 : Int) = 7) :=
  ⟨by decide, progress_bar 3 5 7 (by decide) (by decide) (by decide) (by decide)⟩

end Airpipe
